import Mathlib

/-!
Verification development for the wimms node-assignment metadata store.

The definitions below are a shallow embedding of `wimms/sql.py` and
`wimms/shardedsql.py`.  Database tables are lists of row structures, SQL
statements become list transformations, and the operations of
`SQLMetadata` become pure functions threading the database state.
Service names are modelled as their resolved numeric ids (the
`_get_service_id` translation performed by `_safe_execute`); uniqueness
races on insert (`IntegrityError`) are modelled by an explicit `conflict`
flag, since they can only arise from a concurrent writer.
-/

namespace Wimms

/-- A row of the `users` table: `users(uid, service, email, node,
generation, client_state, created_at, replaced_at)`. -/
structure UserRecord where
  uid : Nat
  service : Nat
  email : String
  node : String
  generation : Nat
  client_state : String
  created_at : Nat
  replaced_at : Option Nat
deriving DecidableEq

/-- A row of the `nodes` table: `nodes(service, node, available,
current_load, capacity, downed, backoff)`. -/
structure NodeRec where
  service : Nat
  node : String
  available : Int
  current_load : Int
  capacity : Int
  downed : Int
  backoff : Int
deriving DecidableEq

/-- The whole database visible through one engine: the `users` rows, the
`nodes` rows, and the autoincrement counter assigning fresh uids. -/
structure DB where
  nodes : List NodeRec
  users : List UserRecord
  next_uid : Nat
deriving DecidableEq

/-- Errors surfaced by the operations.  `backend msg` is
`mozsvc.exceptions.BackendError(msg)`; `pyTypeError` models the Python
`TypeError` raised by `dict.update(None)`. -/
inductive Err where
  | backend (msg : String)
  | pyTypeError
deriving DecidableEq

deriving instance DecidableEq for Except

/-- The error raised by `get_best_node` when no node is eligible
(`BackendError('unable to get a node')`); the spec calls it
`NoNodeAvailable`. -/
def noNodeAvailable : Err := Err.backend ("unable to get a node")

/-- The error raised by `update_user` on a repeated client-state string
(`BackendError('previously seen client-state string')`); the spec calls
it `ClientStateReused`. -/
def clientStateReused : Err := Err.backend ("previously seen client-state string")

/-- The `order by created_at desc, uid desc` ordering of
`_GET_USER_RECORDS`: `recBefore a b` holds when row `a` sorts no later
than row `b`. -/
def recBefore (a b : UserRecord) : Prop :=
  b.created_at < a.created_at ∨ (a.created_at = b.created_at ∧ b.uid ≤ a.uid)

instance : DecidableRel recBefore := fun a b => by
  unfold recBefore; infer_instance

instance : IsTotal UserRecord recBefore := by
  constructor
  intro a b
  unfold recBefore
  rcases Nat.lt_trichotomy a.created_at b.created_at with h | h | h
  · exact Or.inr (Or.inl h)
  · rcases Nat.le_total a.uid b.uid with hu | hu
    · exact Or.inr (Or.inr ⟨h.symm, hu⟩)
    · exact Or.inl (Or.inr ⟨h, hu⟩)
  · exact Or.inl (Or.inl h)

instance : IsTrans UserRecord recBefore := by
  constructor
  intro a b c hab hbc
  unfold recBefore at *
  rcases hab with h1 | ⟨e1, u1⟩
  · rcases hbc with h2 | ⟨e2, u2⟩
    · exact Or.inl (h2.trans h1)
    · exact Or.inl (e2 ▸ h1)
  · rcases hbc with h2 | ⟨e2, u2⟩
    · exact Or.inl (e1 ▸ h2)
    · exact Or.inr ⟨e1.trans e2, u2.trans u1⟩

instance : IsRefl UserRecord recBefore :=
  ⟨fun a => Or.inr ⟨rfl, le_refl _⟩⟩

/-- The `where email = :email and service = :service` filter shared by
the user-record queries. -/
def matchesUser (service : Nat) (email : String) (r : UserRecord) : Bool :=
  r.service == service && r.email == email

/-- The `_GET_USER_RECORDS` query: matching rows, ordered by
`created_at desc, uid desc`, `limit 20`. -/
def getUserRecords (users : List UserRecord) (service : Nat) (email : String) :
    List UserRecord :=
  ((users.filter (matchesUser service email)).insertionSort recBefore).take 20

/-- The dict built by `SQLMetadata.get_user`: the newest row's fields,
plus the client-state values of the remaining fetched rows
(`old_client_states`, a set modelled as a list of keys). -/
structure UserDict where
  email : String
  uid : Nat
  node : String
  generation : Nat
  client_state : String
  old_client_states : List String
deriving DecidableEq

/-- Embedding of `SQLMetadata.get_user`. -/
def get_user (users : List UserRecord) (service : Nat) (email : String) :
    Option UserDict :=
  match getUserRecords users service email with
  | [] => none
  | r :: rest =>
      some { email := email, uid := r.uid, node := r.node,
             generation := r.generation, client_state := r.client_state,
             old_client_states := rest.map (fun q => q.client_state) }

/-- The eligibility filter of `get_best_node`:
`service = :service and available > 0 and capacity > current_load and
downed = 0`. -/
def eligible (service : Nat) (n : NodeRec) : Bool :=
  n.service == service && decide (0 < n.available) &&
    decide (n.current_load < n.capacity) && n.downed == 0

/-- The sqlite ordering of `get_best_node`:
`order by current_load * 1.0 / capacity` ascending, the load fraction
taken as an exact rational (`Rat.divInt a b` is the rational `a / b`,
compare `Rat.divInt_eq_div`). -/
def nodeOrd (a b : NodeRec) : Prop :=
  Rat.divInt a.current_load a.capacity ≤ Rat.divInt b.current_load b.capacity

instance : DecidableRel nodeOrd := fun a b => by
  unfold nodeOrd; infer_instance

instance : IsTotal NodeRec nodeOrd := ⟨fun a b => le_total _ _⟩

instance : IsTrans NodeRec nodeOrd := ⟨fun _ _ _ h1 h2 => le_trans h1 h2⟩

/-- The mysql ordering of `get_best_node`:
`order by log(current_load) / log(capacity)` ascending, over the reals. -/
def logOrd (a b : NodeRec) : Prop :=
  Real.log (a.current_load : ℝ) / Real.log (a.capacity : ℝ) ≤
    Real.log (b.current_load : ℝ) / Real.log (b.capacity : ℝ)

/-- Embedding of `SQLMetadata.get_best_node`: select the eligible node
minimizing the load fraction, then decrement `available` and increment
`current_load` on every `nodes` row matching `(service, node)`. -/
def get_best_node (db : DB) (service : Nat) : Except Err (String × DB) :=
  match ((db.nodes.filter (eligible service)).insertionSort nodeOrd).head? with
  | none => Except.error noNodeAvailable
  | some best =>
      let nodes2 := db.nodes.map (fun n =>
        if n.service == service && n.node == best.node
        then { n with available := n.available - 1,
                      current_load := n.current_load + 1 }
        else n)
      Except.ok (best.node, { db with nodes := nodes2 })

/-- Embedding of `SQLMetadata.create_user`.  `conflict` tells whether
the `_CREATE_USER_RECORD` insert hits a uniqueness violation raced by a
concurrent writer (`IntegrityError`), in which case the freshly-read
`get_user` dict is returned instead. -/
def create_user (db : DB) (now : Nat) (service : Nat) (email : String)
    (generation : Nat) (client_state : String) (conflict : Bool) :
    Except Err (Option UserDict) × DB :=
  match get_best_node db service with
  | Except.error e => (Except.error e, db)
  | Except.ok (node, db1) =>
      if conflict then
        (Except.ok (get_user db1.users service email), db1)
      else
        let newRec : UserRecord :=
          { uid := db1.next_uid, service := service, email := email,
            node := node, generation := generation,
            client_state := client_state, created_at := now,
            replaced_at := none }
        (Except.ok (some { email := email, uid := db1.next_uid, node := node,
                           generation := generation,
                           client_state := client_state,
                           old_client_states := [] }),
         { db1 with users := db1.users ++ [newRec],
                    next_uid := db1.next_uid + 1 })

/-- The row transformation of `_UPDATE_GENERATION_NUMBER`: set
`generation = :generation` on a row when
`service = :service and email = :email and generation < :generation and
replaced_at is null`, and keep it unchanged otherwise. -/
def genBump (service : Nat) (email : String) (g : Nat) (r : UserRecord) :
    UserRecord :=
  if r.service == service && r.email == email && decide (r.generation < g) &&
     r.replaced_at == none
  then { r with generation := g } else r

/-- The `_UPDATE_GENERATION_NUMBER` statement applied to the `users`
table. -/
def updateGenerationNumber (users : List UserRecord) (service : Nat)
    (email : String) (g : Nat) : List UserRecord :=
  users.map (genBump service email g)

/-- The `_REPLACE_USER_RECORDS` statement: stamp `replaced_at` on every
matching row with `replaced_at is null and created_at < :timestamp`. -/
def replaceUserRecords (users : List UserRecord) (service : Nat)
    (email : String) (timestamp : Nat) : List UserRecord :=
  users.map (fun r =>
    if r.service == service && r.email == email &&
       r.replaced_at == none && decide (r.created_at < timestamp)
    then { r with replaced_at := some timestamp }
    else r)

/-- Embedding of `SQLMetadata.update_user`.  The Python function mutates
the passed `user` dict in place and returns `None`; here the updated
dict is returned together with the database.  On an error the database
component is whatever the call had committed before raising (the
client-state checks run before any statement).  `conflict` plays the
same role as in `create_user`. -/
def update_user (db : DB) (now : Nat) (service : Nat) (user : UserDict)
    (generation : Option Nat) (client_state : Option String)
    (conflict : Bool) : Except Err UserDict × DB :=
  match client_state with
  | none =>
      match generation with
      | none => (Except.ok user, db)
      | some g =>
          (Except.ok { user with generation := max g user.generation },
           { db with users := updateGenerationNumber db.users service user.email g })
  | some cs =>
      if cs == user.client_state then
        (Except.error clientStateReused, db)
      else if user.old_client_states.contains cs then
        (Except.error clientStateReused, db)
      else
        let g := match generation with
          | some g0 => max user.generation g0
          | none => user.generation
        if conflict then
          match get_user db.users service user.email with
          | none => (Except.error Err.pyTypeError, db)
          | some u2 =>
              (Except.ok u2,
               { db with users := replaceUserRecords db.users service user.email now })
        else
          let newRec : UserRecord :=
            { uid := db.next_uid, service := service, email := user.email,
              node := user.node, generation := g, client_state := cs,
              created_at := now, replaced_at := none }
          (Except.ok
            { user with
                uid := db.next_uid
                generation := g
                old_client_states := user.old_client_states ++ [user.client_state]
                client_state := cs },
           { db with
               users := replaceUserRecords (db.users ++ [newRec]) service
                          user.email now,
               next_uid := db.next_uid + 1 })

/-- The row transformation of `_RETIRE_USER_RECORDS`: a row with this
email and `replaced_at is null` — with no service filter — gets
`replaced_at = :timestamp` and `generation = 9223372036854775807`; any
other row is untouched. -/
def retireMark (email : String) (now : Nat) (r : UserRecord) : UserRecord :=
  if r.email == email && r.replaced_at == none
  then { r with replaced_at := some now, generation := 9223372036854775807 }
  else r

/-- Embedding of `SQLMetadata.retire_user` (`_RETIRE_USER_RECORDS`). -/
def retire_user (db : DB) (now : Nat) (email : String) : DB :=
  { db with users := db.users.map (retireMark email now) }

/-- Embedding of `SQLMetadata.add_node`: insert a `nodes` row. -/
def add_node (db : DB) (service : Nat) (node : String) (capacity : Int)
    (available : Int) (current_load : Int) (downed : Int) (backoff : Int) :
    DB :=
  { db with nodes := db.nodes ++
      [{ service := service, node := node, available := available,
         current_load := current_load, capacity := capacity,
         downed := downed, backoff := backoff }] }

/-- Embedding of `ShardedSQLMetadata._dbkey`: `service.split('-')[0]`,
the part of the service name before the first dash (the whole name when
it has no dash), written on the character list so that it computes by
kernel reduction. -/
def dbkey (service : String) : String :=
  String.mk (service.data.takeWhile (fun c => c != '-'))

/-- Division of the sharded state: the `_dbs` dict, keyed by `_dbkey`
values. -/
def Shards := List (String × DB)

/-- Embedding of the `self._dbs[self._dbkey(service)]` dispatch used by
`ShardedSQLMetadata._get_engine` and `_get_table`. -/
def shardFor (dbs : Shards) (service : String) : Option DB :=
  (List.find? (fun p => p.1 == dbkey service) dbs).map Prod.snd

/-- Store the routed shard back after an update, the write half of the
dict access. -/
def putShard (dbs : Shards) (service : String) (db : DB) : Shards :=
  List.map (fun p => if p.1 == dbkey service then (p.1, db) else p) dbs

/-- Sharded `add_node`: route to the shard owning `_dbkey(service)` and
add the row there; `sid` is the service id resolved inside that
shard. -/
def sharded_add_node (dbs : Shards) (service : String) (sid : Nat)
    (node : String) (capacity : Int) (available : Int) (current_load : Int)
    (downed : Int) (backoff : Int) : Shards :=
  match shardFor dbs service with
  | none => dbs
  | some db =>
      putShard dbs service
        (add_node db sid node capacity available current_load downed backoff)

/-- Sharded `get_best_node`: route to the shard owning
`_dbkey(service)`. -/
def sharded_get_best_node (dbs : Shards) (service : String) (sid : Nat) :
    Option (Except Err (String × DB)) :=
  (shardFor dbs service).map (fun db => get_best_node db sid)

/-- Definition taken from the words of the spec, for comparison with
`dbkey`: the service name with a trailing dash-separated version suffix
stripped — everything from the LAST dash on removed — and nothing more;
a name without a dash maps to itself. -/
def dbkeySpec (service : String) : String :=
  if service.data.contains '-' then
    String.mk (((service.data.reverse.dropWhile (fun c => c != '-')).drop 1).reverse)
  else service

/-! ### Helper lemmas about the sort underlying the queries -/

theorem insertionSort_eq_nil_iff {α : Type} (r : α → α → Prop) [DecidableRel r]
    {l : List α} : l.insertionSort r = [] ↔ l = [] := by
  constructor
  · intro h
    have hlen := List.length_insertionSort r l
    rw [h] at hlen
    exact List.length_eq_zero.mp hlen.symm
  · rintro rfl
    rfl

theorem head_insertionSort_first {α : Type} (r : α → α → Prop) [DecidableRel r]
    [IsTotal α r] [IsTrans α r] [IsRefl α r] {l rest : List α} {a : α}
    (h : l.insertionSort r = a :: rest) : ∀ x ∈ l, r a x := by
  intro x hx
  have hs : List.Sorted r (a :: rest) := h ▸ List.sorted_insertionSort r l
  have hx2 : x ∈ a :: rest := h ▸ (List.mem_insertionSort r).mpr hx
  rcases List.mem_cons.mp hx2 with rfl | hx3
  · exact IsRefl.refl x
  · exact List.rel_of_sorted_cons hs x hx3

theorem mem_head_insertionSort {α : Type} (r : α → α → Prop) [DecidableRel r]
    {l rest : List α} {a : α} (h : l.insertionSort r = a :: rest) : a ∈ l := by
  have : a ∈ l.insertionSort r := by rw [h]; exact List.mem_cons_self a rest
  exact (List.mem_insertionSort r).mp this

/-! ### Claim theorems -/

/-- Claim C5: `get_best_node` only ever returns a node of the given
service with `available > 0`, `current_load < capacity` and `downed = 0`,
and it fails with the no-node-available error exactly when no node
satisfies that eligibility condition. -/
theorem get_best_node_eligible_or_unavailable (db : DB) (service : Nat) :
    (∀ n db2, get_best_node db service = Except.ok (n, db2) →
      ∃ nd ∈ db.nodes, nd.service = service ∧ 0 < nd.available ∧
        nd.current_load < nd.capacity ∧ nd.downed = 0 ∧ nd.node = n) ∧
    (get_best_node db service = Except.error noNodeAvailable ↔
      ∀ nd ∈ db.nodes, ¬(nd.service = service ∧ 0 < nd.available ∧
        nd.current_load < nd.capacity ∧ nd.downed = 0)) := by
  have helig : ∀ nd : NodeRec, eligible service nd = true ↔
      (nd.service = service ∧ 0 < nd.available ∧
        nd.current_load < nd.capacity ∧ nd.downed = 0) := by
    intro nd
    simp [eligible, Bool.and_eq_true, decide_eq_true_eq, beq_iff_eq, and_assoc]
  constructor
  · intro n db2 hok
    unfold get_best_node at hok
    rcases hL : ((db.nodes.filter (eligible service)).insertionSort nodeOrd).head? with _ | ⟨best⟩
    · rw [hL] at hok
      simp at hok
    · rw [hL] at hok
      simp only [Except.ok.injEq, Prod.mk.injEq] at hok
      have hmem : best ∈ db.nodes.filter (eligible service) := by
        rcases hcons : (db.nodes.filter (eligible service)).insertionSort nodeOrd with _ | ⟨b, rest⟩
        · rw [hcons] at hL; simp at hL
        · rw [hcons] at hL
          simp only [List.head?_cons, Option.some.injEq] at hL
          subst hL
          exact mem_head_insertionSort nodeOrd hcons
      have hmem2 := List.mem_filter.mp hmem
      exact ⟨best, hmem2.1, by
        rcases (helig best).mp hmem2.2 with ⟨h1, h2, h3, h4⟩
        exact ⟨h1, h2, h3, h4, hok.1⟩⟩
  · constructor
    · intro herr nd hnd hbad
      unfold get_best_node at herr
      rcases hL : ((db.nodes.filter (eligible service)).insertionSort nodeOrd).head? with _ | ⟨best⟩
      · rw [hL] at herr
        have hnil : (db.nodes.filter (eligible service)).insertionSort nodeOrd = [] :=
          List.head?_eq_none_iff.mp hL
        have hfil : db.nodes.filter (eligible service) = [] :=
          (insertionSort_eq_nil_iff nodeOrd).mp hnil
        have : nd ∈ db.nodes.filter (eligible service) :=
          List.mem_filter.mpr ⟨hnd, (helig nd).mpr hbad⟩
        rw [hfil] at this
        simp at this
      · rw [hL] at herr
        simp at herr
    · intro hno
      unfold get_best_node
      have hfil : db.nodes.filter (eligible service) = [] := by
        rw [List.filter_eq_nil_iff]
        intro nd hnd
        intro hel
        exact hno nd hnd ((helig nd).mp hel)
      rw [hfil]
      rfl

/-- Claim C7: `retire_user` stamps every row for the email with
`replaced_at = null` — whatever its service — with the retirement
timestamp and the maximal generation `9223372036854775807`, and leaves
every other row (already replaced, or another email) unchanged. -/
theorem retire_user_marks_all_active (db : DB) (now : Nat) (email : String) :
    (retire_user db now email).users.length = db.users.length ∧
    ∀ i, i < db.users.length →
      ((∀ h : i < db.users.length,
          (db.users.get ⟨i, h⟩).email = email ∧
          (db.users.get ⟨i, h⟩).replaced_at = none) →
        ∀ h : i < db.users.length,
          (retire_user db now email).users[i]? =
            some { db.users.get ⟨i, h⟩ with replaced_at := some now, generation := 9223372036854775807 }) ∧
      ((∀ h : i < db.users.length,
          ¬((db.users.get ⟨i, h⟩).email = email ∧
            (db.users.get ⟨i, h⟩).replaced_at = none)) →
        ∀ h : i < db.users.length,
          (retire_user db now email).users[i]? = some (db.users.get ⟨i, h⟩)) := by
  refine ⟨by simp [retire_user], ?_⟩
  intro i hi
  constructor
  · intro hcond h
    rcases hcond h with ⟨he, hr⟩
    simp only [List.get_eq_getElem] at he hr
    have hget : db.users[i]? = some (db.users.get ⟨i, h⟩) := by
      simp [List.getElem?_eq_getElem h]
    simp only [retire_user, List.getElem?_map, hget, Option.map_some']
    simp [retireMark, he, hr]
  · intro hcond h
    have hcon := hcond h
    have hget : db.users[i]? = some (db.users.get ⟨i, h⟩) := by
      simp [List.getElem?_eq_getElem h]
    have hfalse : ((db.users.get ⟨i, h⟩).email == email &&
        (db.users.get ⟨i, h⟩).replaced_at == none) = false := by
      rcases hcase : ((db.users.get ⟨i, h⟩).email == email &&
          (db.users.get ⟨i, h⟩).replaced_at == none) with _ | _
      · rfl
      · exfalso
        apply hcon
        simp only [Bool.and_eq_true, beq_iff_eq] at hcase
        exact ⟨hcase.1, by simpa using hcase.2⟩
    simp only [retire_user, List.getElem?_map, hget, Option.map_some']
    simp only [List.get_eq_getElem] at hfalse
    simp [retireMark, hfalse]

/-- Witness for C5 at a concrete one-node database. -/
theorem get_best_node_eligible_or_unavailable_witness :
    ∃ nd ∈ ([⟨1, "A", 100, 0, 100, 0, 0⟩] : List NodeRec), nd.service = 1 ∧
      0 < nd.available ∧ nd.current_load < nd.capacity ∧ nd.downed = 0 ∧
      nd.node = "A" := by
  apply (get_best_node_eligible_or_unavailable ⟨[⟨1, "A", 100, 0, 100, 0, 0⟩], [], 0⟩ 1).1
    "A" ⟨[⟨1, "A", 99, 1, 100, 0, 0⟩], [], 0⟩
  decide

/-- Witness for C7 at a concrete one-record database. -/
theorem retire_user_marks_all_active_witness :
    (retire_user ⟨[], [⟨1, 1, "a@b", "n", 0, "", 100, none⟩], 2⟩ 300 "a@b").users[0]? =
      some ⟨1, 1, "a@b", "n", 9223372036854775807, "", 100, some 300⟩ := by
  have h := ((retire_user_marks_all_active
      ⟨[], [⟨1, 1, "a@b", "n", 0, "", 100, none⟩], 2⟩ 300 "a@b").2 0 (by decide)).1
      (fun hlt => ⟨rfl, rfl⟩) (by decide)
  simpa using h

/-- The node-selection step touches only the `nodes` table: `users` and
the uid counter pass through. -/
theorem get_best_node_users_eq (db : DB) (service : Nat) (n : String) (db2 : DB)
    (h : get_best_node db service = Except.ok (n, db2)) :
    db2.users = db.users ∧ db2.next_uid = db.next_uid := by
  unfold get_best_node at h
  rcases hL : ((db.nodes.filter (eligible service)).insertionSort nodeOrd).head? with _ | ⟨best⟩
  · rw [hL] at h
    simp at h
  · rw [hL] at h
    simp only [Except.ok.injEq, Prod.mk.injEq] at h
    rw [← h.2]
    exact ⟨rfl, rfl⟩

/-- Claim C10: `create_user` performs the node allocation first —
decrementing the chosen node's `available`, incrementing its
`current_load` — and this change to the `nodes` table survives whether
or not the subsequent insert loses the uniqueness race. -/
theorem create_user_consumes_slot (db : DB) (now service : Nat) (email : String)
    (generation : Nat) (client_state : String) (conflict : Bool)
    (n : String) (db1 : DB)
    (hbn : get_best_node db service = Except.ok (n, db1)) :
    ((create_user db now service email generation client_state conflict).2).nodes = db1.nodes ∧
    db1.nodes.length = db.nodes.length ∧
    ∀ i, ∀ h : i < db.nodes.length,
      (((db.nodes.get ⟨i, h⟩).service = service ∧ (db.nodes.get ⟨i, h⟩).node = n) →
        db1.nodes[i]? =
          some { db.nodes.get ⟨i, h⟩ with available := (db.nodes.get ⟨i, h⟩).available - 1, current_load := (db.nodes.get ⟨i, h⟩).current_load + 1 }) ∧
      (¬((db.nodes.get ⟨i, h⟩).service = service ∧ (db.nodes.get ⟨i, h⟩).node = n) →
        db1.nodes[i]? = some (db.nodes.get ⟨i, h⟩)) := by
  have hnodes : db1.nodes = db.nodes.map (fun nd =>
      if nd.service == service && nd.node == n
      then { nd with available := nd.available - 1, current_load := nd.current_load + 1 }
      else nd) := by
    unfold get_best_node at hbn
    rcases hL : ((db.nodes.filter (eligible service)).insertionSort nodeOrd).head? with _ | ⟨best⟩
    · rw [hL] at hbn
      simp at hbn
    · rw [hL] at hbn
      simp only [Except.ok.injEq, Prod.mk.injEq] at hbn
      rw [← hbn.2, ← hbn.1]
  refine ⟨?_, ?_, ?_⟩
  · unfold create_user
    rw [hbn]
    rcases conflict with _ | _ <;> simp
  · rw [hnodes]
    simp
  · intro i h
    have hget : db.nodes[i]? = some (db.nodes.get ⟨i, h⟩) := by
      simp [List.getElem?_eq_getElem h]
    constructor
    · intro hcond
      rcases hcond with ⟨hs, hn⟩
      simp only [List.get_eq_getElem] at hs hn
      simp only [hnodes, List.getElem?_map, hget, Option.map_some']
      simp [hs, hn]
    · intro hcond
      have hfalse : ((db.nodes.get ⟨i, h⟩).service == service &&
          (db.nodes.get ⟨i, h⟩).node == n) = false := by
        rcases hcase : ((db.nodes.get ⟨i, h⟩).service == service &&
            (db.nodes.get ⟨i, h⟩).node == n) with _ | _
        · rfl
        · exfalso
          apply hcond
          simp only [Bool.and_eq_true, beq_iff_eq] at hcase
          exact ⟨hcase.1, hcase.2⟩
      simp only [List.get_eq_getElem] at hfalse
      simp only [hnodes, List.getElem?_map, hget, Option.map_some']
      simp [hfalse]

/-- Witness for C10 at a concrete one-node database. -/
theorem create_user_consumes_slot_witness :
    ((create_user ⟨[⟨1, "A", 100, 0, 100, 0, 0⟩], [], 0⟩ 400 1 "x@y" 0 "" true).2).nodes =
      ([⟨1, "A", 99, 1, 100, 0, 0⟩] : List NodeRec) := by
  have h := (create_user_consumes_slot ⟨[⟨1, "A", 100, 0, 100, 0, 0⟩], [], 0⟩ 400 1 "x@y"
      0 "" true "A" ⟨[⟨1, "A", 99, 1, 100, 0, 0⟩], [], 0⟩ (by decide)).1
  simpa using h

/-- Unfolding of a successful `get_user`: the dict is built from the
head of the fetched window, the remaining rows feeding
`old_client_states`. -/
theorem get_user_eq_some_unfold (users : List UserRecord) (service : Nat)
    (email : String) (user : UserDict)
    (hget : get_user users service email = some user) :
    ∃ r rest, getUserRecords users service email = r :: rest ∧
      user = ⟨email, r.uid, r.node, r.generation, r.client_state,
              rest.map (fun q => q.client_state)⟩ := by
  unfold get_user at hget
  rcases hrec : getUserRecords users service email with _ | ⟨r, rest⟩
  · rw [hrec] at hget
    simp at hget
  · rw [hrec] at hget
    simp only [Option.some.injEq] at hget
    exact ⟨r, rest, rfl, hget.symm⟩

/-- Claim C1: rotating the client state to the active value or to any
value among the last-20 window fails with the client-state-reused error,
and the database is untouched by the failed call. -/
theorem update_user_rejects_reused_client_state (db : DB) (now service : Nat)
    (email : String) (user : UserDict) (cs : String) (g : Option Nat)
    (conflict : Bool)
    (hget : get_user db.users service email = some user)
    (hcs : cs ∈ (getUserRecords db.users service email).map
      (fun r => r.client_state)) :
    update_user db now service user g (some cs) conflict =
      (Except.error clientStateReused, db) := by
  obtain ⟨r, rest, hrec, huser⟩ := get_user_eq_some_unfold db.users service email user hget
  rw [hrec] at hcs
  simp only [List.map_cons, List.mem_cons, List.mem_map] at hcs
  by_cases hc1 : cs = user.client_state
  · have hb : (cs == user.client_state) = true := by simp [hc1]
    simp [update_user, hb]
  · have hb : (cs == user.client_state) = false := by simp [hc1]
    have hc2 : user.old_client_states.contains cs = true := by
      rcases hcs with hhead | htail
      · exfalso
        apply hc1
        rw [huser]
        exact hhead
      · rw [huser]
        simp only [List.contains_iff_exists_mem_beq]
        rcases htail with ⟨q, hq, hqcs⟩
        exact ⟨cs, by exact List.mem_map.mpr ⟨q, hq, hqcs⟩, by simp⟩
    simp [update_user, hb, hc2]
    intro hno
    exact absurd (by simpa using hc2) hno

/-- Witness for C1: rotating back to the empty initial client state is
refused and the database is unchanged. -/
theorem update_user_rejects_reused_client_state_witness :
    update_user ⟨[], [⟨1, 1, "a@b", "n1", 0, "", 100, none⟩, ⟨2, 1, "a@b", "n1", 0, "aaa", 200, none⟩], 3⟩
        300 1 ⟨"a@b", 2, "n1", 0, "aaa", [""]⟩ none (some "") false =
      (Except.error clientStateReused,
       ⟨[], [⟨1, 1, "a@b", "n1", 0, "", 100, none⟩, ⟨2, 1, "a@b", "n1", 0, "aaa", 200, none⟩], 3⟩) := by
  apply update_user_rejects_reused_client_state _ _ _ "a@b" _ _ _ _ (by decide) (by decide)

/-- Claim C3: a `create_user` losing the uniqueness race to a concurrent
creator does not error: it re-reads and returns the winning record, so
both callers observe the same uid and node, and the re-read adds no row. -/
theorem create_user_idempotent_under_race (db0 : DB) (now now2 service : Nat)
    (email : String) (g g2 : Nat) (cs cs2 : String) (u1 : UserDict) (db1 : DB)
    (hfresh : ∀ r ∈ db0.users, ¬(r.service = service ∧ r.email = email))
    (h1 : create_user db0 now service email g cs false = (Except.ok (some u1), db1))
    (pr : String × DB) (hbn2 : get_best_node db1 service = Except.ok pr) :
    ∃ u2, create_user db1 now2 service email g2 cs2 true = (Except.ok (some u2), pr.2) ∧
      u2.uid = u1.uid ∧ u2.node = u1.node ∧ pr.2.users = db1.users := by
  rcases pr with ⟨n2, dbB⟩
  rcases hA : get_best_node db0 service with e | ⟨node, dbA⟩
  · unfold create_user at h1
    rw [hA] at h1
    simp at h1
  · unfold create_user at h1
    rw [hA] at h1
    simp only [Bool.false_eq_true, if_false, Prod.mk.injEq, Except.ok.injEq,
      Option.some.injEq] at h1
    have hAusers := get_best_node_users_eq db0 service node dbA hA
    have hdb1users : db1.users = db0.users ++
        [⟨db0.next_uid, service, email, node, g, cs, now, none⟩] := by
      rw [← h1.2]
      simp [hAusers.1, hAusers.2]
    have hu1 : u1 = ⟨email, db0.next_uid, node, g, cs, []⟩ := by
      rw [← h1.1, hAusers.2]
    have hBusers := get_best_node_users_eq db1 service n2 dbB hbn2
    have hfilter : db1.users.filter (matchesUser service email) =
        [⟨db0.next_uid, service, email, node, g, cs, now, none⟩] := by
      rw [hdb1users, List.filter_append]
      have hnil : db0.users.filter (matchesUser service email) = [] := by
        rw [List.filter_eq_nil_iff]
        intro r hr hm
        apply hfresh r hr
        simp only [matchesUser, Bool.and_eq_true, beq_iff_eq] at hm
        exact hm
      rw [hnil]
      simp [matchesUser]
    have hgu : get_user db1.users service email =
        some ⟨email, db0.next_uid, node, g, cs, []⟩ := by
      unfold get_user getUserRecords
      rw [hfilter]
      rfl
    refine ⟨⟨email, db0.next_uid, node, g, cs, []⟩, ?_, ?_, ?_, hBusers.1⟩
    · unfold create_user
      rw [hbn2]
      simp only [if_true]
      rw [hBusers.1, hgu]
    · rw [hu1]
    · rw [hu1]

/-- Witness for C3: two concurrent `create_user` calls for the same
fresh identity observe uid 7 and node A. -/
theorem create_user_idempotent_under_race_witness :
    ∃ u2, create_user ⟨[⟨1, "A", 99, 1, 100, 0, 0⟩], [⟨7, 1, "x@y", "A", 0, "", 400, none⟩], 8⟩
        401 1 "x@y" 0 "" true =
      (Except.ok (some u2), (( "A", (⟨[⟨1, "A", 98, 2, 100, 0, 0⟩], [⟨7, 1, "x@y", "A", 0, "", 400, none⟩], 8⟩ : DB)) : String × DB).2) ∧
      u2.uid = (⟨"x@y", 7, "A", 0, "", []⟩ : UserDict).uid ∧
      u2.node = (⟨"x@y", 7, "A", 0, "", []⟩ : UserDict).node ∧
      (( "A", (⟨[⟨1, "A", 98, 2, 100, 0, 0⟩], [⟨7, 1, "x@y", "A", 0, "", 400, none⟩], 8⟩ : DB)) : String × DB).2.users =
        (⟨[⟨1, "A", 99, 1, 100, 0, 0⟩], [⟨7, 1, "x@y", "A", 0, "", 400, none⟩], 8⟩ : DB).users := by
  apply create_user_idempotent_under_race ⟨[⟨1, "A", 100, 0, 100, 0, 0⟩], [], 7⟩ 400 401 1 "x@y"
    0 0 "" "" ⟨"x@y", 7, "A", 0, "", []⟩
  · intro r hr
    simp at hr
  · decide
  · decide

/-- The `_REPLACE_USER_RECORDS` update, restated with propositional
conditions. -/
theorem replaceUserRecords_eq (users : List UserRecord) (service : Nat)
    (email : String) (ts : Nat) :
    replaceUserRecords users service email ts = users.map (fun r =>
      if r.service = service ∧ r.email = email ∧ r.replaced_at = none ∧ r.created_at < ts
      then { r with replaced_at := some ts } else r) := by
  unfold replaceUserRecords
  apply List.map_congr_left
  intro r hr
  by_cases h : r.service = service ∧ r.email = email ∧ r.replaced_at = none ∧
      r.created_at < ts
  · rw [if_pos (by simp [h.1, h.2.1, h.2.2.1, h.2.2.2]), if_pos h]
  · have hb : (r.service == service && r.email == email && r.replaced_at == none &&
        decide (r.created_at < ts)) = false := by
      rcases hc : (r.service == service && r.email == email && r.replaced_at == none &&
          decide (r.created_at < ts)) with _ | _
      · rfl
      · exfalso
        apply h
        simp only [Bool.and_eq_true, beq_iff_eq, decide_eq_true_eq] at hc
        exact ⟨hc.1.1.1, hc.1.1.2, by simpa using hc.1.2, hc.2⟩
    rw [hb, if_neg h]
    simp

/-- Claim C6: a successful client-state rotation appends exactly one new
record — same node binding, generation `max(current, given)` (current
when none is given), the new client state, created now, unreplaced — and
stamps every other record of that identity having `replaced_at = null`
and `created_at < now` as replaced. -/
theorem update_user_rotate_success (db : DB) (now service : Nat)
    (email : String) (user : UserDict) (cs : String) (gopt : Option Nat)
    (hget : get_user db.users service email = some user)
    (h1 : cs ≠ user.client_state)
    (h2 : cs ∉ user.old_client_states) :
    update_user db now service user gopt (some cs) false =
      (Except.ok ⟨email, db.next_uid, user.node,
         (match gopt with | some g0 => max user.generation g0 | none => user.generation),
         cs, user.old_client_states ++ [user.client_state]⟩,
       ⟨db.nodes,
        (db.users.map (fun r =>
          if r.service = service ∧ r.email = email ∧ r.replaced_at = none ∧ r.created_at < now
          then { r with replaced_at := some now } else r)) ++
        [⟨db.next_uid, service, email, user.node,
          (match gopt with | some g0 => max user.generation g0 | none => user.generation),
          cs, now, none⟩],
        db.next_uid + 1⟩) := by
  have hemail : user.email = email := by
    obtain ⟨r, rest, hrec, huser⟩ :=
      get_user_eq_some_unfold db.users service email user hget
    rw [huser]
  have hb1 : (cs == user.client_state) = false := by simp [h1]
  have hb2 : user.old_client_states.contains cs = false := by
    rcases hc : user.old_client_states.contains cs with _ | _
    · rfl
    · exact absurd (by simpa using hc) h2
  have hnew : ∀ g : Nat, replaceUserRecords
      (db.users ++ [⟨db.next_uid, service, user.email, user.node, g, cs, now, none⟩])
      service user.email now =
      (db.users.map (fun r =>
        if r.service = service ∧ r.email = email ∧ r.replaced_at = none ∧ r.created_at < now
        then { r with replaced_at := some now } else r)) ++
      [⟨db.next_uid, service, user.email, user.node, g, cs, now, none⟩] := by
    intro g
    rw [replaceUserRecords_eq, List.map_append]
    rw [hemail]
    congr 1
    simp
  rcases gopt with _ | ⟨g0⟩
  · simp only [update_user, hb1, hb2, Bool.false_eq_true, if_false, Bool.true_eq_false]
    rw [hnew user.generation]
    rw [hemail]
  · simp only [update_user, hb1, hb2, Bool.false_eq_true, if_false, Bool.true_eq_false]
    rw [hnew (max user.generation g0)]
    rw [hemail]

/-- Witness for C6: rotating from client state `aaa` to `bbb`. -/
theorem update_user_rotate_success_witness :
    update_user ⟨[], [⟨1, 1, "a@b", "n1", 0, "", 100, none⟩, ⟨2, 1, "a@b", "n1", 0, "aaa", 200, none⟩], 3⟩
        300 1 ⟨"a@b", 2, "n1", 0, "aaa", [""]⟩ none (some "bbb") false =
      (Except.ok ⟨"a@b", 3, "n1", 0, "bbb", ["", "aaa"]⟩,
       ⟨[],
        ([⟨1, 1, "a@b", "n1", 0, "", 100, none⟩, ⟨2, 1, "a@b", "n1", 0, "aaa", 200, none⟩].map (fun r =>
          if r.service = 1 ∧ r.email = "a@b" ∧ r.replaced_at = none ∧ r.created_at < 300
          then { r with replaced_at := some 300 } else r)) ++
        [⟨3, 1, "a@b", "n1", 0, "bbb", 300, none⟩],
        4⟩) := by
  apply update_user_rotate_success
  · decide
  · decide
  · decide

/-- The generation-bump row transformation touches no field but
`generation`. -/
theorem genBump_preserves (s : Nat) (e : String) (g : Nat) (r : UserRecord) :
    (genBump s e g r).uid = r.uid ∧ (genBump s e g r).service = r.service ∧
    (genBump s e g r).email = r.email ∧ (genBump s e g r).node = r.node ∧
    (genBump s e g r).client_state = r.client_state ∧
    (genBump s e g r).created_at = r.created_at ∧
    (genBump s e g r).replaced_at = r.replaced_at := by
  unfold genBump
  split <;> exact ⟨rfl, rfl, rfl, rfl, rfl, rfl, rfl⟩

/-- The generation bump either leaves the row alone or raises its
generation to `g`, and the latter only on an unreplaced matching row
whose generation was strictly below `g`. -/
theorem genBump_cases (s : Nat) (e : String) (g : Nat) (r : UserRecord) :
    genBump s e g r = r ∨
      (genBump s e g r = { r with generation := g } ∧ r.generation < g ∧
        r.replaced_at = none ∧ r.service = s ∧ r.email = e) := by
  unfold genBump
  rcases hc : (r.service == s && r.email == e && decide (r.generation < g) &&
      r.replaced_at == none) with _ | _
  · left
    simp [hc]
  · right
    refine ⟨by simp [hc], ?_⟩
    simp only [Bool.and_eq_true, beq_iff_eq, decide_eq_true_eq] at hc
    exact ⟨hc.1.2, by simpa using hc.2, hc.1.1.1, hc.1.1.2⟩

/-- The generation bump preserves the fetch order of
`_GET_USER_RECORDS`. -/
theorem recBefore_genBump_iff (s : Nat) (e : String) (g : Nat)
    (a b : UserRecord) :
    recBefore (genBump s e g a) (genBump s e g b) ↔ recBefore a b := by
  have ha := genBump_preserves s e g a
  have hb := genBump_preserves s e g b
  unfold recBefore
  rw [ha.2.2.2.2.2.1, hb.2.2.2.2.2.1, ha.1, hb.1]

/-- The generation bump preserves the identity filter. -/
theorem matchesUser_genBump (s2 : Nat) (e2 : String) (s : Nat) (e : String)
    (g : Nat) (r : UserRecord) :
    matchesUser s2 e2 (genBump s e g r) = matchesUser s2 e2 r := by
  have h := genBump_preserves s e g r
  unfold matchesUser
  rw [h.2.1, h.2.2.1]

/-- The `_GET_USER_RECORDS` window after a generation bump is the bump
of the window: the update reorders nothing. -/
theorem getUserRecords_updateGeneration (users : List UserRecord)
    (s2 s : Nat) (e2 e : String) (g : Nat) :
    getUserRecords (updateGenerationNumber users s e g) s2 e2 =
      (getUserRecords users s2 e2).map (genBump s e g) := by
  unfold getUserRecords updateGenerationNumber
  rw [List.filter_map]
  have hfc : (users.filter ((matchesUser s2 e2) ∘ (genBump s e g))) =
      users.filter (matchesUser s2 e2) := by
    apply List.filter_congr
    intro r hr
    exact matchesUser_genBump s2 e2 s e g r
  rw [hfc]
  rw [← List.map_insertionSort recBefore recBefore (genBump s e g) _
    (fun a ha b hb => (recBefore_genBump_iff s e g a b).symm)]
  rw [List.map_take]

/-- Claim C2: a generation-only `update_user` only ever raises the
generation of unreplaced rows of the identity whose generation is
strictly below the new value, changes no other field of any row, is a
no-op when no such row exists — in particular when the new value is at
most the active generation, or when the identity's rows are all
replaced — and the active record's generation never decreases. -/
theorem update_user_generation_monotone (db : DB) (now service : Nat)
    (user : UserDict) (g : Nat) (conflict : Bool) :
    (update_user db now service user (some g) none conflict).1 =
      Except.ok { user with generation := max g user.generation } ∧
    ((update_user db now service user (some g) none conflict).2).nodes = db.nodes ∧
    ((update_user db now service user (some g) none conflict).2).next_uid = db.next_uid ∧
    ((update_user db now service user (some g) none conflict).2).users.length = db.users.length ∧
    (∀ i, ∀ h : i < db.users.length, ∃ r2,
      ((update_user db now service user (some g) none conflict).2).users[i]? = some r2 ∧
      r2.uid = (db.users.get ⟨i, h⟩).uid ∧ r2.node = (db.users.get ⟨i, h⟩).node ∧
      r2.client_state = (db.users.get ⟨i, h⟩).client_state ∧
      r2.created_at = (db.users.get ⟨i, h⟩).created_at ∧
      r2.replaced_at = (db.users.get ⟨i, h⟩).replaced_at ∧
      (r2.generation = (db.users.get ⟨i, h⟩).generation ∨
        (r2.generation = g ∧ (db.users.get ⟨i, h⟩).generation < g ∧
         (db.users.get ⟨i, h⟩).replaced_at = none ∧
         (db.users.get ⟨i, h⟩).service = service ∧
         (db.users.get ⟨i, h⟩).email = user.email))) ∧
    ((∀ r ∈ db.users, r.service = service → r.email = user.email →
        r.replaced_at = none → ¬ r.generation < g) →
      (update_user db now service user (some g) none conflict).2 = db) ∧
    (∀ usr, get_user db.users service user.email = some usr →
      ∃ usr2, get_user ((update_user db now service user (some g) none conflict).2).users
          service user.email = some usr2 ∧
        usr.generation ≤ usr2.generation ∧ usr2.uid = usr.uid ∧
        usr2.node = usr.node ∧ usr2.client_state = usr.client_state) := by
  have hred : update_user db now service user (some g) none conflict =
      (Except.ok { user with generation := max g user.generation },
       { db with users := updateGenerationNumber db.users service user.email g }) := rfl
  rw [hred]
  refine ⟨rfl, rfl, rfl, by simp [updateGenerationNumber], ?_, ?_, ?_⟩
  · intro i h
    have hget : db.users[i]? = some (db.users.get ⟨i, h⟩) := by
      simp [List.getElem?_eq_getElem h]
    refine ⟨genBump service user.email g (db.users.get ⟨i, h⟩), ?_, ?_⟩
    · simp only [updateGenerationNumber, List.getElem?_map]
      rw [List.get_eq_getElem] at hget ⊢
      rw [hget]
      rfl
    · have hp := genBump_preserves service user.email g (db.users.get ⟨i, h⟩)
      refine ⟨hp.1, hp.2.2.2.1, hp.2.2.2.2.1, hp.2.2.2.2.2.1, hp.2.2.2.2.2.2, ?_⟩
      rcases genBump_cases service user.email g (db.users.get ⟨i, h⟩) with heq | ⟨heq, h1, h2, h3, h4⟩
      · left
        rw [heq]
      · right
        exact ⟨by rw [heq], h1, h2, h3, h4⟩
  · intro hno
    have hmapid : updateGenerationNumber db.users service user.email g = db.users := by
      unfold updateGenerationNumber
      have : ∀ r ∈ db.users, genBump service user.email g r = r := by
        intro r hr
        rcases genBump_cases service user.email g r with heq | ⟨heq, h1, h2, h3, h4⟩
        · exact heq
        · exact absurd h1 (hno r hr h3 h4 h2)
      calc db.users.map (genBump service user.email g)
          = db.users.map (fun r => r) := List.map_congr_left this
        _ = db.users := by simp
    simp only [hmapid]
  · intro usr husr
    obtain ⟨r, rest, hrec, huser⟩ :=
      get_user_eq_some_unfold db.users service user.email usr husr
    have hwin : getUserRecords
        (updateGenerationNumber db.users service user.email g) service user.email =
        (genBump service user.email g r) ::
          rest.map (genBump service user.email g) := by
      rw [getUserRecords_updateGeneration, hrec]
      rfl
    have hp := genBump_preserves service user.email g r
    refine ⟨⟨user.email, (genBump service user.email g r).uid,
        (genBump service user.email g r).node,
        (genBump service user.email g r).generation,
        (genBump service user.email g r).client_state,
        (rest.map (genBump service user.email g)).map (fun q => q.client_state)⟩,
      ?_, ?_, ?_, ?_, ?_⟩
    · unfold get_user
      rw [hwin]
    · rw [huser]
      rcases genBump_cases service user.email g r with heq | ⟨heq, h1, h2, h3, h4⟩
      · rw [heq]
      · rw [heq]
        exact le_of_lt h1
    · rw [huser]
      exact hp.1
    · rw [huser]
      exact hp.2.2.2.1
    · rw [huser]
      exact hp.2.2.2.2.1

/-- Witness for C2 at a concrete database: bumping generation from 0 to
5 on a single active record. -/
theorem update_user_generation_monotone_witness :
    (update_user ⟨[], [⟨1, 1, "a@b", "n1", 0, "", 100, none⟩], 2⟩ 300 1
        ⟨"a@b", 1, "n1", 0, "", []⟩ (some 5) none false).1 =
      Except.ok ⟨"a@b", 1, "n1", 5, "", []⟩ := by
  have h := (update_user_generation_monotone ⟨[], [⟨1, 1, "a@b", "n1", 0, "", 100, none⟩], 2⟩
      300 1 ⟨"a@b", 1, "n1", 0, "", []⟩ 5 false).1
  simpa using h

/-- The retirement mark touches only `generation` and `replaced_at`. -/
theorem retireMark_preserves (e : String) (now : Nat) (r : UserRecord) :
    (retireMark e now r).uid = r.uid ∧ (retireMark e now r).service = r.service ∧
    (retireMark e now r).email = r.email ∧ (retireMark e now r).node = r.node ∧
    (retireMark e now r).client_state = r.client_state ∧
    (retireMark e now r).created_at = r.created_at := by
  unfold retireMark
  split <;> exact ⟨rfl, rfl, rfl, rfl, rfl, rfl⟩

/-- The retirement mark preserves the fetch order of
`_GET_USER_RECORDS`. -/
theorem recBefore_retireMark_iff (e : String) (now : Nat) (a b : UserRecord) :
    recBefore (retireMark e now a) (retireMark e now b) ↔ recBefore a b := by
  have ha := retireMark_preserves e now a
  have hb := retireMark_preserves e now b
  unfold recBefore
  rw [ha.2.2.2.2.2, hb.2.2.2.2.2, ha.1, hb.1]

/-- The retirement mark preserves the identity filter. -/
theorem matchesUser_retireMark (s2 : Nat) (e2 e : String) (now : Nat)
    (r : UserRecord) :
    matchesUser s2 e2 (retireMark e now r) = matchesUser s2 e2 r := by
  have h := retireMark_preserves e now r
  unfold matchesUser
  rw [h.2.1, h.2.2.1]

/-- The `_GET_USER_RECORDS` window after retirement is the retirement
mark of the window. -/
theorem getUserRecords_retire (db : DB) (now : Nat) (s2 : Nat) (e2 e : String) :
    getUserRecords (retire_user db now e).users s2 e2 =
      (getUserRecords db.users s2 e2).map (retireMark e now) := by
  show getUserRecords (db.users.map (retireMark e now)) s2 e2 = _
  unfold getUserRecords
  rw [List.filter_map]
  have hfc : (db.users.filter ((matchesUser s2 e2) ∘ (retireMark e now))) =
      db.users.filter (matchesUser s2 e2) := by
    apply List.filter_congr
    intro r hr
    exact matchesUser_retireMark s2 e2 e now r
  rw [hfc]
  rw [← List.map_insertionSort recBefore recBefore (retireMark e now) _
    (fun a ha b hb => (recBefore_retireMark_iff e now a b).symm)]
  rw [List.map_take]

/-- Claim C9: `get_user` returns the row of the identity with the
greatest `(created_at, uid)` key, replaced or not, and returns `none`
exactly when the identity has no row at all; after `retire_user` the
strictly newest active row comes back carrying the sentinel generation
`9223372036854775807` instead of `none`. -/
theorem get_user_returns_latest_record (db : DB) (service : Nat)
    (email : String) :
    (get_user db.users service email = none ↔
      ∀ r ∈ db.users, ¬(r.service = service ∧ r.email = email)) ∧
    (∀ u, get_user db.users service email = some u →
      ∃ r ∈ db.users, r.service = service ∧ r.email = email ∧
        u.uid = r.uid ∧ u.node = r.node ∧ u.generation = r.generation ∧
        u.client_state = r.client_state ∧
        ∀ q ∈ db.users, q.service = service → q.email = email → recBefore r q) ∧
    (∀ now r0, r0 ∈ db.users → r0.service = service → r0.email = email →
      r0.replaced_at = none →
      (∀ q ∈ db.users, q.service = service → q.email = email → q ≠ r0 →
        (q.created_at < r0.created_at ∨
          (q.created_at = r0.created_at ∧ q.uid < r0.uid))) →
      ∃ u, get_user (retire_user db now email).users service email = some u ∧
        u.generation = 9223372036854775807 ∧ u.uid = r0.uid) := by
  have hmatch : ∀ r : UserRecord, matchesUser service email r = true ↔
      (r.service = service ∧ r.email = email) := by
    intro r
    simp [matchesUser, Bool.and_eq_true, beq_iff_eq]
  refine ⟨?_, ?_, ?_⟩
  · constructor
    · intro hnone r hr hbad
      unfold get_user at hnone
      rcases hrec : getUserRecords db.users service email with _ | ⟨b, t⟩
      · unfold getUserRecords at hrec
        rcases List.take_eq_nil_iff.mp hrec with h20 | hsnil
        · exact absurd h20 (by decide)
        · have hfnil := (insertionSort_eq_nil_iff recBefore).mp hsnil
          have : r ∈ db.users.filter (matchesUser service email) :=
            List.mem_filter.mpr ⟨hr, (hmatch r).mpr hbad⟩
          rw [hfnil] at this
          simp at this
      · rw [hrec] at hnone
        simp at hnone
    · intro hno
      have hfnil : db.users.filter (matchesUser service email) = [] := by
        rw [List.filter_eq_nil_iff]
        intro r hr hm
        exact hno r hr ((hmatch r).mp hm)
      unfold get_user getUserRecords
      rw [hfnil]
      rfl
  · intro u hu
    obtain ⟨r, rest, hrec, huser⟩ :=
      get_user_eq_some_unfold db.users service email u hu
    rcases hs : (db.users.filter (matchesUser service email)).insertionSort recBefore
        with _ | ⟨b, t⟩
    · unfold getUserRecords at hrec
      rw [hs] at hrec
      simp at hrec
    · have hhead : r = b := by
        unfold getUserRecords at hrec
        rw [hs] at hrec
        simp only [List.take_succ_cons, List.cons.injEq] at hrec
        exact hrec.1.symm
      have hbmem : b ∈ db.users.filter (matchesUser service email) :=
        mem_head_insertionSort recBefore hs
      have hbm := List.mem_filter.mp hbmem
      have hbprops := (hmatch b).mp hbm.2
      refine ⟨b, hbm.1, hbprops.1, hbprops.2, ?_, ?_, ?_, ?_, ?_⟩
      · rw [huser, hhead]
      · rw [huser, hhead]
      · rw [huser, hhead]
      · rw [huser, hhead]
      · intro q hq hqs hqe
        apply head_insertionSort_first recBefore hs
        exact List.mem_filter.mpr ⟨hq, (hmatch q).mpr ⟨hqs, hqe⟩⟩
  · intro now r0 hr0 hr0s hr0e hr0rep hmax
    rcases hs : (db.users.filter (matchesUser service email)).insertionSort recBefore
        with _ | ⟨b, t⟩
    · exfalso
      have : r0 ∈ db.users.filter (matchesUser service email) :=
        List.mem_filter.mpr ⟨hr0, (hmatch r0).mpr ⟨hr0s, hr0e⟩⟩
      rw [← List.mem_insertionSort recBefore (l := db.users.filter (matchesUser service email))] at this
      rw [hs] at this
      simp at this
    · have hbmem := mem_head_insertionSort recBefore hs
      have hbm := List.mem_filter.mp hbmem
      have hbprops := (hmatch b).mp hbm.2
      have hb0 : b = r0 := by
        by_contra hne
        have hstrict := hmax b hbm.1 hbprops.1 hbprops.2 hne
        have hbefore : recBefore b r0 :=
          head_insertionSort_first recBefore hs r0
            (List.mem_filter.mpr ⟨hr0, (hmatch r0).mpr ⟨hr0s, hr0e⟩⟩)
        unfold recBefore at hbefore
        rcases hstrict with hlt | ⟨hceq, hult⟩
        · rcases hbefore with h1 | ⟨h2, h3⟩
          · exact absurd (h1.trans hlt) (lt_irrefl _)
          · rw [h2] at hlt
            exact absurd hlt (lt_irrefl _)
        · rcases hbefore with h1 | ⟨h2, h3⟩
          · rw [hceq] at h1
            exact absurd h1 (lt_irrefl _)
          · exact absurd (lt_of_le_of_lt h3 hult) (lt_irrefl _)
      have hwin : getUserRecords (retire_user db now email).users service email =
          (retireMark email now b) :: (t.take 19).map (retireMark email now) := by
        rw [getUserRecords_retire]
        unfold getUserRecords
        rw [hs]
        rfl
      refine ⟨⟨email, (retireMark email now b).uid, (retireMark email now b).node,
          (retireMark email now b).generation, (retireMark email now b).client_state,
          ((t.take 19).map (retireMark email now)).map (fun q => q.client_state)⟩,
        ?_, ?_, ?_⟩
      · unfold get_user
        rw [hwin]
      · rw [hb0]
        unfold retireMark
        rw [if_pos (by simp [hr0e, hr0rep])]
      · rw [hb0]
        exact (retireMark_preserves email now r0).1

/-- Witness for C9: after retiring a one-record identity, `get_user`
still returns it, now with the sentinel generation. -/
theorem get_user_returns_latest_record_witness :
    ∃ u, get_user (retire_user ⟨[], [⟨1, 1, "a@b", "n1", 7, "", 100, none⟩], 2⟩ 300 "a@b").users
        1 "a@b" = some u ∧
      u.generation = 9223372036854775807 ∧ u.uid = 1 := by
  have h := (get_user_returns_latest_record ⟨[], [⟨1, 1, "a@b", "n1", 7, "", 100, none⟩], 2⟩
      1 "a@b").2.2 300 ⟨1, 1, "a@b", "n1", 7, "", 100, none⟩ (by decide) rfl rfl rfl
      (fun q hq hqs hqe hne => by
        exfalso
        apply hne
        simpa using hq)
  exact h

/-- Counterexample for C4: with loads non-negative and capacities at
least 1 — node A carrying load 3 of capacity 9, node B load 2 of
capacity 5 — the plain ratio strictly prefers A (1/3 < 2/5) while the
`log(current_load)/log(capacity)` comparator strictly prefers B
(log 2/log 5 < 1/2 = log 3/log 9): the two orderings pick different
minimizers. -/
theorem log_ordering_disagrees_with_ratio :
    (0 ≤ (⟨1, "A", 1, 3, 9, 0, 0⟩ : NodeRec).current_load ∧
     0 ≤ (⟨1, "B", 1, 2, 5, 0, 0⟩ : NodeRec).current_load ∧
     1 ≤ (⟨1, "A", 1, 3, 9, 0, 0⟩ : NodeRec).capacity ∧
     1 ≤ (⟨1, "B", 1, 2, 5, 0, 0⟩ : NodeRec).capacity) ∧
    (nodeOrd ⟨1, "A", 1, 3, 9, 0, 0⟩ ⟨1, "B", 1, 2, 5, 0, 0⟩ ∧
     ¬ nodeOrd ⟨1, "B", 1, 2, 5, 0, 0⟩ ⟨1, "A", 1, 3, 9, 0, 0⟩) ∧
    (logOrd ⟨1, "B", 1, 2, 5, 0, 0⟩ ⟨1, "A", 1, 3, 9, 0, 0⟩ ∧
     ¬ logOrd ⟨1, "A", 1, 3, 9, 0, 0⟩ ⟨1, "B", 1, 2, 5, 0, 0⟩) := by
  have h9 : Real.log 9 = 2 * Real.log 3 := by
    rw [show (9 : ℝ) = 3 ^ 2 by norm_num, Real.log_pow]
    norm_num
  have h4 : Real.log 4 = 2 * Real.log 2 := by
    rw [show (4 : ℝ) = 2 ^ 2 by norm_num, Real.log_pow]
    norm_num
  have h3pos : 0 < Real.log 3 := Real.log_pos (by norm_num)
  have h5pos : 0 < Real.log 5 := Real.log_pos (by norm_num)
  have hhalf : Real.log 3 / Real.log 9 = 1 / 2 := by
    rw [h9]
    rw [eq_div_iff (by norm_num)]
    field_simp
    ring
  have h45 : Real.log 4 < Real.log 5 := Real.log_lt_log (by norm_num) (by norm_num)
  have hlt : Real.log 2 / Real.log 5 < 1 / 2 := by
    rw [div_lt_div_iff h5pos (by norm_num : (0 : ℝ) < 2)]
    calc Real.log 2 * 2 = Real.log 4 := by rw [h4]; ring
      _ < Real.log 5 := h45
      _ = 1 * Real.log 5 := by ring
  have hstrict : Real.log 2 / Real.log 5 < Real.log 3 / Real.log 9 := by
    rw [hhalf]
    exact hlt
  refine ⟨by decide, ⟨by decide, by decide⟩, ?_, ?_⟩
  · show Real.log ((2 : Int) : ℝ) / Real.log ((5 : Int) : ℝ) ≤
      Real.log ((3 : Int) : ℝ) / Real.log ((9 : Int) : ℝ)
    norm_num
    exact le_of_lt hstrict
  · show ¬ (Real.log ((3 : Int) : ℝ) / Real.log ((9 : Int) : ℝ) ≤
      Real.log ((2 : Int) : ℝ) / Real.log ((5 : Int) : ℝ))
    norm_num
    exact hstrict

/-- Claim C4, amended: the counterexample above breaks the general
equivalence, so the two comparators are only proved to agree when the
capacities compared are equal (at least 2, with loads at least 1, so
that the logarithms are meaningful); the concrete spec scenario — nodes
A(capacity 100, load 0) and B(capacity 100, load 50) — still selects A. -/
theorem log_ordering_matches_ratio_on_equal_capacity (a b : NodeRec)
    (hcap : a.capacity = b.capacity) (h2 : 2 ≤ a.capacity)
    (hl1 : 1 ≤ a.current_load) (hl2 : 1 ≤ b.current_load) :
    (logOrd a b ↔ nodeOrd a b) ∧
    get_best_node ⟨[⟨1, "A", 100, 0, 100, 0, 0⟩, ⟨1, "B", 50, 50, 100, 0, 0⟩], [], 0⟩ 1 =
      Except.ok ("A", ⟨[⟨1, "A", 99, 1, 100, 0, 0⟩, ⟨1, "B", 50, 50, 100, 0, 0⟩], [], 0⟩) := by
  constructor
  · have hcpos : (0 : Int) < a.capacity := lt_of_lt_of_le (by norm_num) h2
    have hcR : (1 : ℝ) < (a.capacity : ℝ) := by
      have : (2 : ℝ) ≤ (a.capacity : ℝ) := by exact_mod_cast h2
      linarith
    have hlogc : 0 < Real.log (a.capacity : ℝ) := Real.log_pos hcR
    have hla : (0 : ℝ) < (a.current_load : ℝ) := by
      have : (1 : ℝ) ≤ (a.current_load : ℝ) := by exact_mod_cast hl1
      linarith
    have hlb : (0 : ℝ) < (b.current_load : ℝ) := by
      have : (1 : ℝ) ≤ (b.current_load : ℝ) := by exact_mod_cast hl2
      linarith
    unfold logOrd nodeOrd
    rw [← hcap]
    rw [div_le_div_right hlogc]
    rw [Real.log_le_log_iff hla hlb]
    rw [Rat.divInt_le_divInt hcpos hcpos]
    constructor
    · intro h
      have : a.current_load ≤ b.current_load := by exact_mod_cast h
      exact mul_le_mul_of_nonneg_right this (le_of_lt hcpos)
    · intro h
      have : a.current_load ≤ b.current_load :=
        le_of_mul_le_mul_right h hcpos
      exact_mod_cast this
  · decide

/-- Witness for the amended C4 at two concrete equal-capacity nodes. -/
theorem log_ordering_matches_ratio_on_equal_capacity_witness :
    ((logOrd ⟨1, "x", 1, 1, 100, 0, 0⟩ ⟨1, "y", 1, 50, 100, 0, 0⟩ ↔
      nodeOrd ⟨1, "x", 1, 1, 100, 0, 0⟩ ⟨1, "y", 1, 50, 100, 0, 0⟩) ∧
    get_best_node ⟨[⟨1, "A", 100, 0, 100, 0, 0⟩, ⟨1, "B", 50, 50, 100, 0, 0⟩], [], 0⟩ 1 =
      Except.ok ("A", ⟨[⟨1, "A", 99, 1, 100, 0, 0⟩, ⟨1, "B", 50, 50, 100, 0, 0⟩], [], 0⟩)) :=
  log_ordering_matches_ratio_on_equal_capacity ⟨1, "x", 1, 1, 100, 0, 0⟩
    ⟨1, "y", 1, 50, 100, 0, 0⟩ (by decide) (by decide) (by decide) (by decide)

/-- Counterexample for C8: `_dbkey` keeps only the part before the
FIRST dash, so on a service name with more than one dash it strips more
than a trailing version suffix: `"sync-blue-1.5"` shards to `"sync"`,
not to `"sync-blue"`. -/
theorem dbkey_strips_from_first_dash :
    dbkey "sync-blue-1.5" = "sync" ∧ dbkeySpec "sync-blue-1.5" = "sync-blue" ∧
    dbkey "sync-blue-1.5" ≠ dbkeySpec "sync-blue-1.5" := by
  refine ⟨by decide, by decide, by decide⟩

/-- Routing after a shard write: storing the routed shard back and
reading through any service name with the same key yields the stored
database. -/
theorem shardFor_putShard (dbs : Shards) (s1 s2 : String) (db : DB)
    (hkey : dbkey s1 = dbkey s2) (hfound : (shardFor dbs s1).isSome = true) :
    shardFor (putShard dbs s1 db) s2 = some db := by
  induction dbs with
  | nil => simp [shardFor] at hfound
  | cons p rest ih =>
      rcases hc : (p.1 == dbkey s1) with _ | _
      · have hc2 : (p.1 == dbkey s2) = false := by
          rw [← hkey]
          exact hc
        have hrec : shardFor (putShard rest s1 db) s2 = some db := by
          apply ih
          unfold shardFor at hfound
          rw [List.find?_cons, hc] at hfound
          exact hfound
        unfold shardFor putShard at *
        rw [List.map_cons, List.find?_cons]
        simp only [hc]
        rw [if_neg (by simp [hc])]
        simp only [hc2]
        exact hrec
      · unfold shardFor putShard
        rw [List.map_cons, List.find?_cons]
        rw [if_pos hc]
        have hc2 : (p.1 == dbkey s2) = true := by
          rw [← hkey]
          exact hc
        simp [hc2]

/-- Claim C8, amended: the sharding key is the part of the service name
before the FIRST dash — not merely a trailing `-version` suffix
stripped — so `"sync-1.0"` and `"sync-1.5"` share the shard key
`"sync"` and resolve to the same database, a name without a dash is its
own key, per-service dispatch routes through that single shard, and a
node added under `"sync-1.0"` lands in the database that allocation
under `"sync-1.5"` reads. -/
theorem dbkey_first_dash_sharding (dbs : Shards) (s1 s2 : String) :
    (dbkey "sync-1.0" = "sync" ∧ dbkey "sync-1.5" = "sync") ∧
    (∀ s : String, (∀ c ∈ s.data, c ≠ '-') → dbkey s = s) ∧
    (dbkey s1 = dbkey s2 → shardFor dbs s1 = shardFor dbs s2) ∧
    (∀ sid node capacity available current_load downed backoff db,
      shardFor dbs s1 = some db → dbkey s1 = dbkey s2 →
      sharded_get_best_node
        (sharded_add_node dbs s1 sid node capacity available current_load downed backoff)
        s2 sid =
      some (get_best_node
        (add_node db sid node capacity available current_load downed backoff) sid)) := by
  refine ⟨⟨by decide, by decide⟩, ?_, ?_, ?_⟩
  · intro s hs
    unfold dbkey
    have : s.data.takeWhile (fun c => c != '-') = s.data := by
      apply List.takeWhile_eq_self_iff.mpr
      intro c hc
      simpa using hs c hc
    rw [this]
  · intro hkey
    unfold shardFor
    rw [hkey]
  · intro sid node capacity available current_load downed backoff db hdb hkey
    unfold sharded_add_node
    rw [hdb]
    unfold sharded_get_best_node
    rw [shardFor_putShard dbs s1 s2 _ hkey (by rw [hdb]; rfl)]
    rfl

/-- Witness for the amended C8: a node added under `sync-1.0` is seen —
and selected — by an allocation under `sync-1.5`. -/
theorem dbkey_first_dash_sharding_witness :
    sharded_get_best_node
      (sharded_add_node [("sync", ⟨[], [], 0⟩)] "sync-1.0" 1 "https://phx12" 100 100 0 0 0)
      "sync-1.5" 1 =
    some (get_best_node
      (add_node ⟨[], [], 0⟩ 1 "https://phx12" 100 100 0 0 0) 1) := by
  apply (dbkey_first_dash_sharding [("sync", ⟨[], [], 0⟩)] "sync-1.0" "sync-1.5").2.2.2
  · decide
  · decide

end Wimms
